import Mathlib

/-!
Shallow embedding of the chunked request-scheduling and assembly engine
of gunpowder (src/gunpowder/nodes/chunk.py), together with theorems that
settle the specification claims about it.  Machine integers are modelled
as Int (all quantities involved are small integers; the numpy float
buffer holds integer values exactly in the traced ranges).
-/

namespace Gunpowder

/-- An integer coordinate vector (gunpowder.Coordinate). -/
abbrev Coordinate := List Int

/-- Componentwise sum of two coordinate vectors. -/
def cadd (a b : Coordinate) : Coordinate := List.zipWith (fun x y => x + y) a b

/-- Componentwise difference of two coordinate vectors. -/
def csub (a b : Coordinate) : Coordinate := List.zipWith (fun x y => x - y) a b

/-- Componentwise minimum of two coordinate vectors. -/
def cmin2 (a b : Coordinate) : Coordinate := List.zipWith min a b

/-- Componentwise maximum of two coordinate vectors. -/
def cmax2 (a b : Coordinate) : Coordinate := List.zipWith max a b

/-- np.min(rows, axis=0) over a nonempty stack given as head and tail. -/
def cminList (x : Coordinate) (xs : List Coordinate) : Coordinate := xs.foldl cmin2 x

/-- np.max(rows, axis=0) over a nonempty stack given as head and tail. -/
def cmaxList (x : Coordinate) (xs : List Coordinate) : Coordinate := xs.foldl cmax2 x

/-- Region of interest: offset plus shape (gunpowder.Roi). -/
structure Roi where
  offset : Coordinate
  shape : Coordinate
deriving Repr, DecidableEq

/-- Number of axes of a region. -/
def Roi.dims (r : Roi) : Nat := r.offset.length

/-- get_offset of a region. -/
def Roi.get_offset (r : Roi) : Coordinate := r.offset

/-- get_shape of a region. -/
def Roi.get_shape (r : Roi) : Coordinate := r.shape

/-- get_begin of a region: its offset. -/
def Roi.get_begin (r : Roi) : Coordinate := r.offset

/-- get_end of a region: offset plus shape, componentwise. -/
def Roi.get_end (r : Roi) : Coordinate := cadd r.offset r.shape

/-- Roi plus Coordinate: translate the offset, keep the shape. -/
def Roi.shift (r : Roi) (c : Coordinate) : Roi := ⟨cadd r.offset c, r.shape⟩

/-- Roi minus Coordinate: translate the offset by the negated vector. -/
def Roi.unshift (r : Roi) (c : Coordinate) : Roi := ⟨csub r.offset c, r.shape⟩

/-- Modelled from the spec: the Roi.intersect operation of the geometry
layer is not under src (only its callers are).  Per section 4.1 of the
spec, the intersection of two regions is the box of componentwise maximal
begins and minimal ends, and an explicit no-overlap result (none) is
returned when some axis has no positive overlap, never a negative-shape
region. -/
def Roi.intersect (a b : Roi) : Option Roi :=
  if (List.zipWith (fun x y => decide (x < y)) (cmax2 a.get_begin b.get_begin)
      (cmin2 a.get_end b.get_end)).all (fun t => t)
  then some ⟨cmax2 a.get_begin b.get_begin,
    csub (cmin2 a.get_end b.get_end) (cmax2 a.get_begin b.get_begin)⟩
  else none

/-- Whether an integer point of matching dimensionality lies inside a
region (componentwise begin le point lt end). -/
def Roi.containsPoint (r : Roi) (p : Coordinate) : Bool :=
  decide (p.length = r.offset.length) &&
  (List.range r.offset.length).all (fun d =>
    decide (r.offset.getD d 0 ≤ p.getD d 0) &&
    decide (p.getD d 0 < (Roi.get_end r).getD d 0))

/-- One templated entity as seen by Chunk.__prepare_requests: its chunk
template region and its region in the outer request.  The scheduler reads
nothing else per entity; non-templated request entries are passed through
unchanged and never influence the walk. -/
structure TVol where
  template : Roi
  request : Roi
deriving Repr, DecidableEq

/-- Modelled from the spec: min_stride in chunk.py line 116 is
chunk_spec_template.get_common_roi().get_shape(), and get_common_roi is
not under src.  Per section 4.2 of the spec, min_stride along each axis is
the smallest template shape along that axis over all entities. -/
def minStride (vols : List TVol) : Coordinate :=
  match vols with
  | [] => []
  | v :: rest => cminList v.template.get_shape (rest.map (fun w => w.template.get_shape))

/-- chunk.py lines 119 to 122: begin is the componentwise minimum over
entities of request begin minus template begin. -/
def beginOf (vols : List TVol) : Coordinate :=
  match vols with
  | [] => []
  | v :: rest =>
    cminList (csub v.request.get_begin v.template.get_begin)
      (rest.map (fun w => csub w.request.get_begin w.template.get_begin))

/-- chunk.py lines 125 to 128: the componentwise maximum over entities of
request end minus template shape, plus min_stride. -/
def endOf (vols : List TVol) : Coordinate :=
  match vols with
  | [] => []
  | v :: rest =>
    cadd
      (cmaxList (csub v.request.get_end v.template.get_shape)
        (rest.map (fun w => csub w.request.get_end w.template.get_shape)))
      (minStride vols)

/-- chunk.py line 21: self.dims is the dimensionality of the first
template volume. -/
def chunkDims (vols : List TVol) : Nat :=
  match vols with
  | [] => 0
  | v :: _ => v.template.dims

/-- Failure modes of the per-step stride computation: an out-of-bounds
write into the fixed length-3 numpy buffer (chunk.py line 143), or a
shape-broadcast failure of clip against min_stride (line 149). -/
inductive StrideErr where
  | oob (dim : Nat)
  | broadcast (bufLen msLen : Nat)
deriving Repr, DecidableEq

/-- Write one component into the stride buffer; numpy raises an index
error when the index is outside the buffer. -/
def setAt (buf : List Int) (i : Nat) (v : Int) : Except StrideErr (List Int) :=
  if i < buf.length then Except.ok (buf.set i v) else Except.error (StrideErr.oob i)

/-- chunk.py lines 145 to 148: the raw per-entity, per-axis stride
candidate before clipping.  The chunk argument is the template region
shifted to the current offset. -/
def candidate (v : TVol) (chunk : Roi) (endv offset : Coordinate) (dim : Nat) : Int :=
  if (chunk.get_end).getD dim 0 < (v.request.get_end).getD dim 0
  then (v.request.get_begin).getD dim 0 - (chunk.get_begin).getD dim 0
  else endv.getD dim 0 - offset.getD dim 0

/-- chunk.py lines 144 to 148: the loop over dims writing candidates into
the length-3 buffer. -/
def writeCands (v : TVol) (chunk : Roi) (endv offset : Coordinate) :
    List Nat → List Int → Except StrideErr (List Int)
  | [], buf => Except.ok buf
  | d :: rest, buf =>
    match setAt buf d (candidate v chunk endv offset d) with
    | Except.error e => Except.error e
    | Except.ok buf2 => writeCands v chunk endv offset rest buf2

/-- chunk.py line 149: max_stride.clip(min_stride), with the numpy
broadcast rule for the lower bound (same length, or length one). -/
def clipLow (buf ms : List Int) : Except StrideErr (List Int) :=
  if ms.length = buf.length then Except.ok (List.zipWith max buf ms)
  else if ms.length = 1 then Except.ok (buf.map (fun x => max x (ms.getD 0 0)))
  else Except.error (StrideErr.broadcast buf.length ms.length)

/-- The clipped stride buffer contributed by one entity at the current
offset (chunk.py lines 143 to 149). -/
def entityStride (dims : Nat) (ms : Coordinate) (v : TVol) (endv offset : Coordinate) :
    Except StrideErr (List Int) :=
  match writeCands v (v.template.shift offset) endv offset (List.range dims) [0, 0, 0] with
  | Except.error e => Except.error e
  | Except.ok buf => clipLow buf ms

/-- Decidable equality for fallible results, needed to evaluate concrete
schedule runs. -/
instance exceptDecEq {ε α : Type} [DecidableEq ε] [DecidableEq α] :
    DecidableEq (Except ε α) := fun a b =>
  match a, b with
  | Except.error x, Except.error y =>
    if h : x = y then Decidable.isTrue (by rw [h])
    else Decidable.isFalse (by intro hc; cases hc; exact h rfl)
  | Except.ok x, Except.ok y =>
    if h : x = y then Decidable.isTrue (by rw [h])
    else Decidable.isFalse (by intro hc; cases hc; exact h rfl)
  | Except.error _, Except.ok _ => Decidable.isFalse (by intro hc; cases hc)
  | Except.ok _, Except.error _ => Decidable.isFalse (by intro hc; cases hc)

/-- Map a fallible function over a list, stopping at the first failure,
first element first (the order the python loop evaluates in). -/
def mapME {ε α β : Type} (f : α → Except ε β) : List α → Except ε (List β)
  | [] => Except.ok []
  | x :: xs =>
    match f x with
    | Except.error e => Except.error e
    | Except.ok y =>
      match mapME f xs with
      | Except.error e => Except.error e
      | Except.ok ys => Except.ok (y :: ys)

/-- chunk.py lines 135 to 151: per-entity clipped stride buffers reduced
by np.min along axis 0. -/
def stepStride (dims : Nat) (ms : Coordinate) (vols : List TVol) (endv offset : Coordinate) :
    Except StrideErr (List Int) :=
  match mapME (fun v => entityStride dims ms v endv offset) vols with
  | Except.error e => Except.error e
  | Except.ok [] => Except.ok []
  | Except.ok (s :: rest) => Except.ok (cminList s rest)

/-- chunk.py lines 156 to 163: the odometer advance of the offset vector.
Axis d gains stride d; on overflow the axis is reset to begin and the
carry moves to the next axis, except that overflow of the last axis is
kept so that the outer guard fails. -/
def odometer (stride beginv endv : Coordinate) : List Nat → Coordinate → Coordinate
  | [], off => off
  | d :: rest, off =>
    let off1 := off.set d (off.getD d 0 + stride.getD d 0)
    if endv.getD d 0 ≤ off1.getD d 0 then
      match rest with
      | [] => off1
      | _ :: _ => odometer stride beginv endv rest (off1.set d (beginv.getD d 0))
    else off1

/-- chunk.py line 131: the loop guard (offset lt end).all(). -/
def ltAll (a b : Coordinate) : Bool :=
  (List.zipWith (fun x y => decide (x < y)) a b).all (fun t => t)

/-- chunk.py lines 130 to 163: the while loop of the schedule walk,
returning the visited offsets in enqueue order.  The walk has no built-in
bound, so the embedding is fuel-indexed: none means the walk was still
running when the fuel ran out. -/
def scheduleLoop (dims : Nat) (ms : Coordinate) (vols : List TVol)
    (beginv endv : Coordinate) : Nat → Coordinate → Option (Except StrideErr (List Coordinate))
  | 0, _ => none
  | fuel + 1, offset =>
    if ltAll offset endv then
      match stepStride dims ms vols endv offset with
      | Except.error e => some (Except.error e)
      | Except.ok stride =>
        match scheduleLoop dims ms vols beginv endv fuel
            (odometer stride beginv endv (List.range dims) offset) with
        | none => none
        | some (Except.error e) => some (Except.error e)
        | some (Except.ok offs) => some (Except.ok (offset :: offs))
    else some (Except.ok [])

/-- Chunk.__prepare_requests: derive the walk bounds and run the walk from
begin, returning the scheduled chunk offsets in enqueue order. -/
def prepareRequests (vols : List TVol) (fuel : Nat) :
    Option (Except StrideErr (List Coordinate)) :=
  scheduleLoop (chunkDims vols) (minStride vols) vols (beginOf vols) (endOf vols)
    fuel (beginOf vols)

/-- chunk.py line 138: the sub-request region assigned to a templated
entity at one scheduled offset is its template region shifted by that
offset. -/
def subRequestRoi (v : TVol) (off : Coordinate) : Roi := Roi.shift v.template off

/-- All sub-request regions assigned to one entity over a schedule. -/
def scheduledChunks (v : TVol) (offs : List Coordinate) : List Roi :=
  offs.map (fun o => subRequestRoi v o)

/-- Whether some scheduled sub-request region for the entity contains the
point. -/
def coversPoint (v : TVol) (offs : List Coordinate) (p : Coordinate) : Bool :=
  (scheduledChunks v offs).any (fun r => r.containsPoint p)

/-- Whether the schedule walk terminates for some fuel bound. -/
def prepareTerminates (vols : List TVol) : Prop :=
  ∃ fuel res, prepareRequests vols fuel = some res

/-- The concrete scenario of spec section 8.7: outer request offset 0
shape 100, template offset 0 shape 30, one dimension. -/
def c2vol : TVol := ⟨⟨[0], [30]⟩, ⟨[0], [100]⟩⟩

/-- Singleton entity list for the section 8.7 scenario. -/
def c2vols : List TVol := [c2vol]

/-- A coverage failure input: template offset -50 shape 30, outer request
offset 0 shape 100, one entity, one dimension. -/
def c1vol : TVol := ⟨⟨[-50], [30]⟩, ⟨[0], [100]⟩⟩

/-- Singleton entity list for the coverage failure input. -/
def c1vols : List TVol := [c1vol]

/-- A zero-shape template input: template offset 0 shape 0, outer request
offset 0 shape 10. -/
def c5vols : List TVol := [⟨⟨[0], [0]⟩, ⟨[0], [10]⟩⟩]

/-- C2: on the section 8.7 scenario the walk computes min_stride 30 and
begin 0 and enqueues exactly four sub-requests, but their chunk offsets
are 0, 30, 60, 90, not the claimed 0, 30, 60, 70: the shrink candidate of
the final step is clamped back up to min_stride, so no stride of 10 is
ever taken. -/
theorem C2_offsets_counterexample :
    prepareRequests c2vols 16 = some (Except.ok [[0], [30], [60], [90]]) ∧
    ([[0], [30], [60], [90]] : List Coordinate) ≠ [[0], [30], [60], [70]] := by
  exact ⟨by decide, by decide⟩

/-- C2 amended: the scenario yields min_stride 30, begin 0, end 100 and
exactly the four chunk offsets 0, 30, 60, 90 in enqueue order.  At the
last visited offset 90 the raw candidate is indeed the shrink-to-fit
value 10, but clip raises it back to min_stride 30, so the final chunk
covers 90 to 120 and overshoots the request end 100 instead of landing on
it. -/
theorem C2_schedule :
    minStride c2vols = [30] ∧ beginOf c2vols = [0] ∧ endOf c2vols = [100] ∧
    prepareRequests c2vols 16 = some (Except.ok [[0], [30], [60], [90]]) ∧
    (([[0], [30], [60], [90]] : List Coordinate)).length = 4 ∧
    candidate c2vol (Roi.shift c2vol.template [90]) [100] [90] 0 = 10 ∧
    stepStride 1 [30] c2vols [100] [90] = Except.ok [30, 30, 30] ∧
    Roi.get_end (subRequestRoi c2vol [90]) = [120] := by
  refine ⟨by decide, by decide, by decide, by decide, by decide, by decide, by decide, by decide⟩

/-- C1: coverage fails on the code.  For the single templated entity with
template region offset -50 shape 30 and outer request offset 0 shape 100
(all scheduler preconditions hold: the entity is in the request, one
dimensionality, positive template shape), the walk terminates after
enqueuing offsets 50 and 80 only, whose chunks cover 0 to 60; the request
point 60 is covered by no scheduled sub-request, so the union of the
assigned regions does not contain the outer request region.  The walk end
is derived from request end minus template shape (chunk.py line 127),
dropping the template offset, although the comment on line 124 says these
are the offsets required to cover the entire requested region. -/
theorem C1_coverage_failure :
    prepareRequests c1vols 16 = some (Except.ok [[50], [80]]) ∧
    Roi.containsPoint c1vol.request [60] = true ∧
    coversPoint c1vol [[50], [80]] [60] = false := by
  refine ⟨by decide, by decide, by decide⟩

/-- A walk step that neither fails nor moves the offset keeps the loop
running for every fuel bound. -/
lemma scheduleLoop_stuck (dims : Nat) (ms : Coordinate) (vols : List TVol)
    (beginv endv off : Coordinate) (hg : ltAll off endv = true) (s : List Int)
    (hs : stepStride dims ms vols endv off = Except.ok s)
    (ho : odometer s beginv endv (List.range dims) off = off) :
    ∀ fuel, scheduleLoop dims ms vols beginv endv fuel off = none := by
  intro fuel
  induction fuel with
  | zero => rfl
  | succ n ih => simp [scheduleLoop, hg, hs, ho, ih]

/-- The zero-shape input never leaves its initial offset: every step has
stride zero. -/
lemma c5_none : ∀ fuel, prepareRequests c5vols fuel = none := by
  have h : ∀ fuel, scheduleLoop 1 [0] c5vols [0] [10] fuel [0] = none :=
    scheduleLoop_stuck 1 [0] c5vols [0] [10] [0] (by decide) [0, 0, 0] (by decide) (by decide)
  intro fuel
  exact h fuel

/-- C5: with a template of zero shape along an axis the schedule walk
does not detect any coverage error; it loops indefinitely.  On the input
with template offset 0 shape 0 and request offset 0 shape 10 the stride
degenerates to zero, the offset never advances, and the walk yields no
result for any fuel bound. -/
theorem C5_zero_shape_divergence : ¬ prepareTerminates c5vols := by
  intro h
  obtain ⟨fuel, res, hres⟩ := h
  rw [c5_none fuel] at hres
  exact Option.noConfusion hres

/-- Writing the candidate of axis 3 into the length-3 buffer is out of
bounds, whatever comes after. -/
lemma writeCands_oob3 (v : TVol) (ch : Roi) (e o : Coordinate) (rest : List Nat) :
    writeCands v ch e o (0 :: 1 :: 2 :: 3 :: rest) [0, 0, 0] =
      Except.error (StrideErr.oob 3) := by
  simp [writeCands, setAt]

/-- A failing head makes the whole fallible map fail with that error. -/
lemma mapME_cons_error {ε α β : Type} (f : α → Except ε β) (x : α) (xs : List α) (e : ε)
    (h : f x = Except.error e) : mapME f (x :: xs) = Except.error e := by
  simp [mapME, h]

/-- A fallible map over elements that all succeed succeeds. -/
lemma mapME_ok_of_all {ε α β : Type} (f : α → Except ε β) :
    ∀ xs : List α, (∀ x ∈ xs, ∃ y, f x = Except.ok y) →
      ∃ ys, mapME f xs = Except.ok ys := by
  intro xs
  induction xs with
  | nil => intro _; exact ⟨[], rfl⟩
  | cons x xs ih =>
    intro h
    obtain ⟨y, hy⟩ := h x (by simp)
    obtain ⟨ys, hys⟩ := ih (fun a ha => h a (by simp [ha]))
    exact ⟨y :: ys, by simp [mapME, hy, hys]⟩

/-- clip succeeds when the lower bound has length one (numpy broadcast of
a single element). -/
lemma clipLow_len1 (buf ms : List Int) (hms : ms.length = 1) (hb : buf.length = 3) :
    clipLow buf ms = Except.ok (buf.map (fun x => max x (ms.getD 0 0))) := by
  simp [clipLow, hms, hb]

/-- clip succeeds when the lower bound has length three (same shape as the
buffer). -/
lemma clipLow_len3 (buf ms : List Int) (hms : ms.length = 3) (hb : buf.length = 3) :
    clipLow buf ms = Except.ok (List.zipWith max buf ms) := by
  simp [clipLow, hms, hb]

/-- clip fails to broadcast a length-2 lower bound against the length-3
buffer. -/
lemma clipLow_len2 (buf ms : List Int) (hms : ms.length = 2) (hb : buf.length = 3) :
    clipLow buf ms = Except.error (StrideErr.broadcast 3 2) := by
  simp [clipLow, hms, hb]

/-- The per-entity stride succeeds in one or three dimensions. -/
lemma entityStride_ok (D : Nat) (hD : D = 1 ∨ D = 3) (ms : Coordinate)
    (hms : ms.length = D) (v : TVol) (e o : Coordinate) :
    ∃ s, entityStride D ms v e o = Except.ok s := by
  cases hD with
  | inl h =>
    subst h
    have h1 : writeCands v (v.template.shift o) e o (List.range 1) [0, 0, 0] =
        Except.ok [candidate v (v.template.shift o) e o 0, 0, 0] := rfl
    have hc := clipLow_len1 [candidate v (v.template.shift o) e o 0, 0, 0] ms hms rfl
    have he : entityStride 1 ms v e o =
        clipLow [candidate v (v.template.shift o) e o 0, 0, 0] ms := by
      simp [entityStride, h1]
    exact ⟨_, he.trans hc⟩
  | inr h =>
    subst h
    have h1 : writeCands v (v.template.shift o) e o (List.range 3) [0, 0, 0] =
        Except.ok [candidate v (v.template.shift o) e o 0,
          candidate v (v.template.shift o) e o 1,
          candidate v (v.template.shift o) e o 2] := rfl
    have hc := clipLow_len3 [candidate v (v.template.shift o) e o 0,
      candidate v (v.template.shift o) e o 1,
      candidate v (v.template.shift o) e o 2] ms hms rfl
    have he : entityStride 3 ms v e o =
        clipLow [candidate v (v.template.shift o) e o 0,
          candidate v (v.template.shift o) e o 1,
          candidate v (v.template.shift o) e o 2] ms := by
      simp [entityStride, h1]
    exact ⟨_, he.trans hc⟩

/-- The per-entity stride fails with a broadcast error in two
dimensions. -/
lemma entityStride_dim2 (ms : Coordinate) (hms : ms.length = 2) (v : TVol)
    (e o : Coordinate) :
    entityStride 2 ms v e o = Except.error (StrideErr.broadcast 3 2) := by
  have h1 : writeCands v (v.template.shift o) e o (List.range 2) [0, 0, 0] =
      Except.ok [candidate v (v.template.shift o) e o 0,
        candidate v (v.template.shift o) e o 1, 0] := rfl
  have hc := clipLow_len2 [candidate v (v.template.shift o) e o 0,
    candidate v (v.template.shift o) e o 1, 0] ms hms rfl
  simp [entityStride, h1, hc]

/-- The per-entity stride fails with an out-of-bounds write at component
3 in four or more dimensions. -/
lemma entityStride_oob (D : Nat) (hD : 4 ≤ D) (ms : Coordinate) (v : TVol)
    (e o : Coordinate) :
    entityStride D ms v e o = Except.error (StrideErr.oob 3) := by
  obtain ⟨k, hk⟩ := Nat.exists_eq_add_of_le hD
  subst hk
  have hr : List.range (4 + k) = 0 :: 1 :: 2 :: 3 :: (List.range k).map (4 + ·) := by
    rw [List.range_add]
    rfl
  simp [entityStride, hr, writeCands_oob3]

/-- C9 amended: the stride buffer is fixed at length 3 whatever the
template dimensionality D, so the per-step stride computation succeeds
exactly for D equal to 1 or 3 (and the walk with it): for D equal to 2 the
clip against the length-2 min_stride fails with a shape-broadcast error
and any visited offset aborts the walk with that error; for D at least 4
the first out-of-bounds write is always the one of stride component 3
(which is D minus 1 only when D is 4). -/
theorem C9_stride_dimensionality (vols : List TVol) (v : TVol) (rest : List TVol)
    (hv : vols = v :: rest) (D : Nat) (ms : Coordinate) (hms : ms.length = D)
    (beginv endv offset : Coordinate) (fuel : Nat) :
    (D = 1 ∨ D = 3 → ∃ s, stepStride D ms vols endv offset = Except.ok s) ∧
    (D = 2 → stepStride D ms vols endv offset = Except.error (StrideErr.broadcast 3 2)) ∧
    (4 ≤ D → stepStride D ms vols endv offset = Except.error (StrideErr.oob 3)) ∧
    (D = 2 → ltAll offset endv = true →
      scheduleLoop D ms vols beginv endv (fuel + 1) offset =
        some (Except.error (StrideErr.broadcast 3 2))) := by
  subst hv
  have h2 : D = 2 → stepStride D ms (v :: rest) endv offset =
      Except.error (StrideErr.broadcast 3 2) := by
    intro hD
    subst hD
    have h := entityStride_dim2 ms hms v endv offset
    have hm := mapME_cons_error (fun w => entityStride 2 ms w endv offset) v rest
      (StrideErr.broadcast 3 2) h
    simp [stepStride, hm]
  refine ⟨?_, h2, ?_, ?_⟩
  · intro hD
    obtain ⟨ys, hys⟩ :=
      mapME_ok_of_all (fun w => entityStride D ms w endv offset) (v :: rest)
        (fun w _ => entityStride_ok D hD ms hms w endv offset)
    cases ys with
    | nil => exact ⟨[], by simp [stepStride, hys]⟩
    | cons s r => exact ⟨cminList s r, by simp [stepStride, hys]⟩
  · intro hD
    have h := entityStride_oob D hD ms v endv offset
    have hm := mapME_cons_error (fun w => entityStride D ms w endv offset) v rest
      (StrideErr.oob 3) h
    simp [stepStride, hm]
  · intro hD hg
    simp [scheduleLoop, hg, h2 hD]

/-- A concrete two-dimensional entity for the C9 witness. -/
def c9dvol : TVol := ⟨⟨[0, 0], [10, 10]⟩, ⟨[0, 0], [20, 20]⟩⟩

/-- C9 witness: in two dimensions the stride computation fails with the
shape-broadcast error. -/
theorem C9_stride_dimensionality_witness :
    stepStride 2 [10, 10] [c9dvol] [30, 30] [0, 0] =
      Except.error (StrideErr.broadcast 3 2) :=
  (C9_stride_dimensionality [c9dvol] c9dvol [] rfl 2 [10, 10] (by decide)
    [0, 0] [30, 30] [0, 0] 0).2.1 rfl

/-- A concrete five-dimensional entity refuting the claimed failing
component. -/
def c9vol : TVol := ⟨⟨[0, 0, 0, 0, 0], [10, 10, 10, 10, 10]⟩,
  ⟨[0, 0, 0, 0, 0], [20, 20, 20, 20, 20]⟩⟩

/-- Singleton entity list for the five-dimensional input. -/
def c9vols : List TVol := [c9vol]

/-- C9: for the five-dimensional input the stride computation fails while
writing stride component 3, not component D minus 1 equal to 4 as the
claim states for every D at least 4. -/
theorem C9_component_counterexample :
    stepStride 5 (minStride c9vols) c9vols (endOf c9vols) (beginOf c9vols) =
      Except.error (StrideErr.oob 3) ∧
    StrideErr.oob 3 ≠ StrideErr.oob (5 - 1) := by
  exact ⟨by decide, by decide⟩

/-- Reading one component of a componentwise combination. -/
lemma getD_zipWith (f : Int → Int → Int) :
    ∀ (a b : List Int) (d : Nat), d < a.length → d < b.length →
      (List.zipWith f a b).getD d 0 = f (a.getD d 0) (b.getD d 0) := by
  intro a
  induction a with
  | nil => intro b d h1 _; simp at h1
  | cons x xs ih =>
    intro b d h1 h2
    cases b with
    | nil => simp at h2
    | cons y ys =>
      cases d with
      | zero => rfl
      | succ n =>
        simp only [List.zipWith_cons_cons, List.getD_cons_succ]
        exact ih ys n (by simpa using h1) (by simpa using h2)

/-- A fold of componentwise combinations keeps the row length when all
rows agree on it. -/
lemma foldl_zip_length (f : Int → Int → Int) :
    ∀ (xs : List Coordinate) (x : Coordinate), (∀ c ∈ xs, c.length = x.length) →
      (xs.foldl (fun a c => List.zipWith f a c) x).length = x.length := by
  intro xs
  induction xs with
  | nil => intro x _; rfl
  | cons c cs ih =>
    intro x h
    have hc : c.length = x.length := h c (by simp)
    have hz : (List.zipWith f x c).length = x.length := by
      simp [List.length_zipWith, hc]
    have := ih (List.zipWith f x c) (fun w hw => by rw [hz]; exact h w (by simp [hw]))
    simpa [hz] using this

/-- A fold of componentwise combinations acts componentwise. -/
lemma foldl_zip_getD (f : Int → Int → Int) :
    ∀ (xs : List Coordinate) (x : Coordinate) (d : Nat), d < x.length →
      (∀ c ∈ xs, c.length = x.length) →
      (xs.foldl (fun a c => List.zipWith f a c) x).getD d 0 =
        xs.foldl (fun a c => f a (c.getD d 0)) (x.getD d 0) := by
  intro xs
  induction xs with
  | nil => intro x d _ _; rfl
  | cons c cs ih =>
    intro x d hd h
    have hc : c.length = x.length := h c (by simp)
    have hz : (List.zipWith f x c).length = x.length := by
      simp [List.length_zipWith, hc]
    have hrec := ih (List.zipWith f x c) d (by rw [hz]; exact hd)
      (fun w hw => by rw [hz]; exact h w (by simp [hw]))
    have hpt : (List.zipWith f x c).getD d 0 = f (x.getD d 0) (c.getD d 0) :=
      getD_zipWith f x c d hd (by rw [hc]; exact hd)
    simp only [List.foldl_cons]
    rw [← hpt]
    exact hrec

/-- cminList is the fold of componentwise minima. -/
lemma cminList_eq (x : Coordinate) (xs : List Coordinate) :
    cminList x xs = xs.foldl (fun a c => List.zipWith min a c) x := rfl

/-- cmaxList is the fold of componentwise maxima. -/
lemma cmaxList_eq (x : Coordinate) (xs : List Coordinate) :
    cmaxList x xs = xs.foldl (fun a c => List.zipWith max a c) x := rfl

/-- A min fold is bounded by its initial value. -/
lemma foldl_min_le_init : ∀ (l : List Int) (a : Int), List.foldl min a l ≤ a := by
  intro l
  induction l with
  | nil => intro a; exact le_refl a
  | cons x xs ih =>
    intro a
    exact le_trans (ih (min a x)) (min_le_left a x)

/-- A min fold is bounded by every list element. -/
lemma foldl_min_le_mem : ∀ (l : List Int) (a b : Int), b ∈ l → List.foldl min a l ≤ b := by
  intro l
  induction l with
  | nil => intro a b hb; simp at hb
  | cons x xs ih =>
    intro a b hb
    rcases List.mem_cons.mp hb with h | h
    · subst h
      exact le_trans (foldl_min_le_init xs (min a b)) (min_le_right a b)
    · exact ih (min a x) b h

/-- A min fold attains its initial value or some list element. -/
lemma foldl_min_attained : ∀ (l : List Int) (a : Int),
    List.foldl min a l = a ∨ ∃ b ∈ l, List.foldl min a l = b := by
  intro l
  induction l with
  | nil => intro a; exact Or.inl rfl
  | cons x xs ih =>
    intro a
    rcases ih (min a x) with h | h
    · rcases min_choice a x with hm | hm
      · exact Or.inl (by rw [List.foldl_cons, h, hm])
      · exact Or.inr ⟨x, by simp, by rw [List.foldl_cons, h, hm]⟩
    · obtain ⟨b, hb, hbe⟩ := h
      exact Or.inr ⟨b, by simp [hb], hbe⟩

/-- A max fold is bounded below by its initial value. -/
lemma foldl_max_ge_init : ∀ (l : List Int) (a : Int), a ≤ List.foldl max a l := by
  intro l
  induction l with
  | nil => intro a; exact le_refl a
  | cons x xs ih =>
    intro a
    exact le_trans (le_max_left a x) (ih (max a x))

/-- A max fold is bounded below by every list element. -/
lemma foldl_max_ge_mem : ∀ (l : List Int) (a b : Int), b ∈ l → b ≤ List.foldl max a l := by
  intro l
  induction l with
  | nil => intro a b hb; simp at hb
  | cons x xs ih =>
    intro a b hb
    rcases List.mem_cons.mp hb with h | h
    · subst h
      exact le_trans (le_max_right a b) (foldl_max_ge_init xs (max a b))
    · exact ih (max a x) b h

/-- A max fold attains its initial value or some list element. -/
lemma foldl_max_attained : ∀ (l : List Int) (a : Int),
    List.foldl max a l = a ∨ ∃ b ∈ l, List.foldl max a l = b := by
  intro l
  induction l with
  | nil => intro a; exact Or.inl rfl
  | cons x xs ih =>
    intro a
    rcases ih (max a x) with h | h
    · rcases max_choice a x with hm | hm
      · exact Or.inl (by rw [List.foldl_cons, h, hm])
      · exact Or.inr ⟨x, by simp, by rw [List.foldl_cons, h, hm]⟩
    · obtain ⟨b, hb, hbe⟩ := h
      exact Or.inr ⟨b, by simp [hb], hbe⟩

/-- Length of a componentwise sum of equal-length vectors. -/
lemma cadd_length (a b : Coordinate) (n : Nat) (ha : a.length = n) (hb : b.length = n) :
    (cadd a b).length = n := by
  simp [cadd, List.length_zipWith, ha, hb]

/-- Length of a componentwise difference of equal-length vectors. -/
lemma csub_length (a b : Coordinate) (n : Nat) (ha : a.length = n) (hb : b.length = n) :
    (csub a b).length = n := by
  simp [csub, List.length_zipWith, ha, hb]

/-- One component of a componentwise sum. -/
lemma cadd_getD (a b : Coordinate) (d : Nat) (ha : d < a.length) (hb : d < b.length) :
    (cadd a b).getD d 0 = a.getD d 0 + b.getD d 0 :=
  getD_zipWith (fun x y => x + y) a b d ha hb

/-- One component of a componentwise difference. -/
lemma csub_getD (a b : Coordinate) (d : Nat) (ha : d < a.length) (hb : d < b.length) :
    (csub a b).getD d 0 = a.getD d 0 - b.getD d 0 :=
  getD_zipWith (fun x y => x - y) a b d ha hb

/-- One component of a row-wise minimum over entities is the least of the
per-entity components: it is attained by some entity and bounds all of
them. -/
lemma cfold_min_spec {α : Type} (g : α → Coordinate) (v : α) (rest : List α)
    (d D : Nat) (hd : d < D) (hg : ∀ w, w = v ∨ w ∈ rest → (g w).length = D) :
    (∃ w ∈ v :: rest, (cminList (g v) (rest.map g)).getD d 0 = (g w).getD d 0) ∧
    ∀ w ∈ v :: rest, (cminList (g v) (rest.map g)).getD d 0 ≤ (g w).getD d 0 := by
  have hx : (g v).length = D := hg v (Or.inl rfl)
  have hall : ∀ c ∈ rest.map g, c.length = (g v).length := by
    intro c hc
    obtain ⟨w, hw, rfl⟩ := List.mem_map.mp hc
    rw [hx]
    exact hg w (Or.inr hw)
  have h1 : (cminList (g v) (rest.map g)).getD d 0 =
      (rest.map g).foldl (fun a c => min a (c.getD d 0)) ((g v).getD d 0) := by
    rw [cminList_eq]
    exact foldl_zip_getD min _ _ d (by rw [hx]; exact hd) hall
  have h2 : (rest.map g).foldl (fun a c => min a (c.getD d 0)) ((g v).getD d 0) =
      (rest.map (fun w => (g w).getD d 0)).foldl min ((g v).getD d 0) := by
    rw [List.foldl_map, List.foldl_map]
  constructor
  · rcases foldl_min_attained (rest.map (fun w => (g w).getD d 0)) ((g v).getD d 0) with h | h
    · exact ⟨v, by simp, by rw [h1, h2, h]⟩
    · obtain ⟨b, hb, hbe⟩ := h
      obtain ⟨w, hw, rfl⟩ := List.mem_map.mp hb
      exact ⟨w, by simp [hw], by rw [h1, h2, hbe]⟩
  · intro w hw
    rcases List.mem_cons.mp hw with h | h
    · subst h
      rw [h1, h2]
      exact foldl_min_le_init _ _
    · rw [h1, h2]
      exact foldl_min_le_mem _ _ _ (List.mem_map.mpr ⟨w, h, rfl⟩)

/-- One component of a row-wise maximum over entities is the greatest of
the per-entity components. -/
lemma cfold_max_spec {α : Type} (g : α → Coordinate) (v : α) (rest : List α)
    (d D : Nat) (hd : d < D) (hg : ∀ w, w = v ∨ w ∈ rest → (g w).length = D) :
    (∃ w ∈ v :: rest, (cmaxList (g v) (rest.map g)).getD d 0 = (g w).getD d 0) ∧
    ∀ w ∈ v :: rest, (g w).getD d 0 ≤ (cmaxList (g v) (rest.map g)).getD d 0 := by
  have hx : (g v).length = D := hg v (Or.inl rfl)
  have hall : ∀ c ∈ rest.map g, c.length = (g v).length := by
    intro c hc
    obtain ⟨w, hw, rfl⟩ := List.mem_map.mp hc
    rw [hx]
    exact hg w (Or.inr hw)
  have h1 : (cmaxList (g v) (rest.map g)).getD d 0 =
      (rest.map g).foldl (fun a c => max a (c.getD d 0)) ((g v).getD d 0) := by
    rw [cmaxList_eq]
    exact foldl_zip_getD max _ _ d (by rw [hx]; exact hd) hall
  have h2 : (rest.map g).foldl (fun a c => max a (c.getD d 0)) ((g v).getD d 0) =
      (rest.map (fun w => (g w).getD d 0)).foldl max ((g v).getD d 0) := by
    rw [List.foldl_map, List.foldl_map]
  constructor
  · rcases foldl_max_attained (rest.map (fun w => (g w).getD d 0)) ((g v).getD d 0) with h | h
    · exact ⟨v, by simp, by rw [h1, h2, h]⟩
    · obtain ⟨b, hb, hbe⟩ := h
      obtain ⟨w, hw, rfl⟩ := List.mem_map.mp hb
      exact ⟨w, by simp [hw], by rw [h1, h2, hbe]⟩
  · intro w hw
    rcases List.mem_cons.mp hw with h | h
    · subst h
      rw [h1, h2]
      exact foldl_max_ge_init _ _
    · rw [h1, h2]
      exact foldl_max_ge_mem _ _ _ (List.mem_map.mpr ⟨w, h, rfl⟩)

/-- C4: the walk bounds of chunk.py lines 115 to 128, per axis.
min_stride is the smallest template shape over entities, begin the
minimum over entities of request offset minus template offset, and the
walk end is min_stride plus the maximum over entities of request end
minus template shape, each characterized as attained by some entity and
bounding all of them. -/
theorem C4_walk_bounds (vols : List TVol) (v : TVol) (rest : List TVol)
    (hv : vols = v :: rest) (D : Nat)
    (hlen : ∀ w ∈ vols, w.template.offset.length = D ∧ w.template.shape.length = D ∧
      w.request.offset.length = D ∧ w.request.shape.length = D)
    (d : Nat) (hd : d < D) :
    ((∃ w ∈ vols, (minStride vols).getD d 0 = w.template.get_shape.getD d 0) ∧
      ∀ w ∈ vols, (minStride vols).getD d 0 ≤ w.template.get_shape.getD d 0) ∧
    ((∃ w ∈ vols, (beginOf vols).getD d 0 =
        w.request.get_begin.getD d 0 - w.template.get_begin.getD d 0) ∧
      ∀ w ∈ vols, (beginOf vols).getD d 0 ≤
        w.request.get_begin.getD d 0 - w.template.get_begin.getD d 0) ∧
    ((∃ w ∈ vols, (endOf vols).getD d 0 =
        (minStride vols).getD d 0 +
          (w.request.get_end.getD d 0 - w.template.get_shape.getD d 0)) ∧
      ∀ w ∈ vols, (minStride vols).getD d 0 +
        (w.request.get_end.getD d 0 - w.template.get_shape.getD d 0) ≤
          (endOf vols).getD d 0) := by
  subst hv
  have hmem : ∀ w : TVol, w = v ∨ w ∈ rest → w ∈ v :: rest := by
    intro w hw
    rcases hw with h | h
    · simp [h]
    · simp [h]
  have hL : ∀ w, w = v ∨ w ∈ rest →
      w.template.offset.length = D ∧ w.template.shape.length = D ∧
      w.request.offset.length = D ∧ w.request.shape.length = D :=
    fun w hw => hlen w (hmem w hw)
  have hgs : ∀ w, w = v ∨ w ∈ rest → (Roi.get_shape w.template).length = D :=
    fun w hw => (hL w hw).2.1
  have hLb : ∀ w, w = v ∨ w ∈ rest → (Roi.get_begin w.request).length = D :=
    fun w hw => (hL w hw).2.2.1
  have hTb : ∀ w, w = v ∨ w ∈ rest → (Roi.get_begin w.template).length = D :=
    fun w hw => (hL w hw).1
  have hgb : ∀ w, w = v ∨ w ∈ rest →
      (csub w.request.get_begin w.template.get_begin).length = D := by
    intro w hw
    exact csub_length _ _ D (hL w hw).2.2.1 (hL w hw).1
  have hreqend : ∀ w, w = v ∨ w ∈ rest → (Roi.get_end w.request).length = D := by
    intro w hw
    exact cadd_length _ _ D (hL w hw).2.2.1 (hL w hw).2.2.2
  have hge : ∀ w, w = v ∨ w ∈ rest →
      (csub w.request.get_end w.template.get_shape).length = D := by
    intro w hw
    exact csub_length _ _ D (hreqend w hw) (hL w hw).2.1
  refine ⟨?_, ?_, ?_⟩
  · exact cfold_min_spec (fun w => w.template.get_shape) v rest d D hd hgs
  · have h := cfold_min_spec (fun w => csub w.request.get_begin w.template.get_begin)
      v rest d D hd hgb
    beta_reduce at h
    constructor
    · obtain ⟨w, hw, he⟩ := h.1
      have hw2 := List.mem_cons.mp hw
      exact ⟨w, hw, he.trans (csub_getD _ _ d
        (by rw [hLb w hw2]; exact hd) (by rw [hTb w hw2]; exact hd))⟩
    · intro w hw
      have hw2 := List.mem_cons.mp hw
      have hle := h.2 w hw
      rw [csub_getD _ _ d (by rw [hLb w hw2]; exact hd)
        (by rw [hTb w hw2]; exact hd)] at hle
      exact hle
  · have h := cfold_max_spec (fun w => csub w.request.get_end w.template.get_shape)
      v rest d D hd hge
    beta_reduce at h
    have hMlen : (cmaxList (csub v.request.get_end v.template.get_shape)
        (rest.map (fun w => csub w.request.get_end w.template.get_shape))).length = D := by
      rw [cmaxList_eq]
      have hall : ∀ c ∈ rest.map (fun w => csub w.request.get_end w.template.get_shape),
          c.length = (csub v.request.get_end v.template.get_shape).length := by
        intro c hc
        obtain ⟨w, hw, rfl⟩ := List.mem_map.mp hc
        rw [hge w (Or.inr hw), hge v (Or.inl rfl)]
      exact (foldl_zip_length max _ _ hall).trans (hge v (Or.inl rfl))
    have hmsl : (minStride (v :: rest)).length = D := by
      have heq : minStride (v :: rest) =
          (rest.map (fun w => w.template.get_shape)).foldl
            (fun a c => List.zipWith min a c) v.template.get_shape := rfl
      rw [heq]
      have hall : ∀ c ∈ rest.map (fun w => w.template.get_shape),
          c.length = (Roi.get_shape v.template).length := by
        intro c hc
        obtain ⟨w, hw, rfl⟩ := List.mem_map.mp hc
        rw [hgs w (Or.inr hw), hgs v (Or.inl rfl)]
      exact (foldl_zip_length min _ _ hall).trans (hgs v (Or.inl rfl))
    have hend : (endOf (v :: rest)).getD d 0 =
        (cmaxList (csub v.request.get_end v.template.get_shape)
          (rest.map (fun w => csub w.request.get_end w.template.get_shape))).getD d 0 +
        (minStride (v :: rest)).getD d 0 :=
      cadd_getD _ _ d (by rw [hMlen]; exact hd) (by rw [hmsl]; exact hd)
    constructor
    · obtain ⟨w, hw, he⟩ := h.1
      have hw2 := List.mem_cons.mp hw
      refine ⟨w, hw, ?_⟩
      rw [hend, he, csub_getD _ _ d (by rw [hreqend w hw2]; exact hd)
        (by rw [hgs w hw2]; exact hd)]
      omega
    · intro w hw
      have hw2 := List.mem_cons.mp hw
      have hle := h.2 w hw
      rw [csub_getD _ _ d (by rw [hreqend w hw2]; exact hd)
        (by rw [hgs w hw2]; exact hd)] at hle
      rw [hend]
      omega

/-- Two concrete mutually centered entities with template shapes 30 and
50 (the second scenario of spec section 8.8). -/
def c4v2 : TVol := ⟨⟨[-10], [50]⟩, ⟨[0], [120]⟩⟩

/-- The two-entity input used to witness the walk-bound theorem. -/
def c4vols : List TVol := [c2vol, c4v2]

/-- C4 witness: on the two-entity input the smallest template shape, 30,
is attained by some entity along axis 0. -/
theorem C4_walk_bounds_witness :
    ∃ w ∈ c4vols, (minStride c4vols).getD 0 0 = w.template.get_shape.getD 0 0 :=
  (C4_walk_bounds c4vols c2vol [c4v2] rfl 1 (by decide) 0 (by decide)).1.1

/-- Clamping each value below by m and then taking the running minimum is
the same as taking the running minimum first and clamping once. -/
lemma foldl_min_max_comm : ∀ (l : List Int) (c m : Int),
    (l.map (fun x => max x m)).foldl min (max c m) = max (List.foldl min c l) m := by
  intro l
  induction l with
  | nil => intro c m; rfl
  | cons x xs ih =>
    intro c m
    simp only [List.map_cons, List.foldl_cons]
    rw [← max_min_distrib_right c x m]
    exact ih (min c x) m

/-- In one or three dimensions the per-entity stride succeeds, has the
fixed buffer length 3, and each in-range component is the raw candidate
clamped below by the min_stride component. -/
lemma entityStride_spec (D : Nat) (hD : D = 1 ∨ D = 3) (ms : Coordinate)
    (hms : ms.length = D) (v : TVol) (e o : Coordinate) :
    ∃ s, entityStride D ms v e o = Except.ok s ∧ s.length = 3 ∧
      ∀ d, d < D → s.getD d 0 =
        max (candidate v (v.template.shift o) e o d) (ms.getD d 0) := by
  cases hD with
  | inl h =>
    subst h
    have h1 : writeCands v (v.template.shift o) e o (List.range 1) [0, 0, 0] =
        Except.ok [candidate v (v.template.shift o) e o 0, 0, 0] := rfl
    have hc := clipLow_len1 [candidate v (v.template.shift o) e o 0, 0, 0] ms hms rfl
    have he : entityStride 1 ms v e o =
        clipLow [candidate v (v.template.shift o) e o 0, 0, 0] ms := by
      simp [entityStride, h1]
    refine ⟨_, he.trans hc, by simp, ?_⟩
    intro d hd
    have hd0 : d = 0 := by omega
    subst hd0
    rfl
  | inr h =>
    subst h
    have h1 : writeCands v (v.template.shift o) e o (List.range 3) [0, 0, 0] =
        Except.ok [candidate v (v.template.shift o) e o 0,
          candidate v (v.template.shift o) e o 1,
          candidate v (v.template.shift o) e o 2] := rfl
    have hc := clipLow_len3 [candidate v (v.template.shift o) e o 0,
      candidate v (v.template.shift o) e o 1,
      candidate v (v.template.shift o) e o 2] ms hms rfl
    have he : entityStride 3 ms v e o =
        clipLow [candidate v (v.template.shift o) e o 0,
          candidate v (v.template.shift o) e o 1,
          candidate v (v.template.shift o) e o 2] ms := by
      simp [entityStride, h1]
    refine ⟨_, he.trans hc, by simp [List.length_zipWith, hms], ?_⟩
    intro d hd
    have hpt := getD_zipWith max [candidate v (v.template.shift o) e o 0,
      candidate v (v.template.shift o) e o 1,
      candidate v (v.template.shift o) e o 2] ms d (by simp; omega) (by rw [hms]; exact hd)
    rw [hpt]
    have hd3 : d = 0 ∨ d = 1 ∨ d = 2 := by omega
    rcases hd3 with h0 | h1 | h2
    · subst h0; rfl
    · subst h1; rfl
    · subst h2; rfl

/-- Mapping the per-entity stride over a list of entities yields one
length-3 buffer per entity whose in-range components are the clamped
candidates. -/
lemma mapME_stride_spec (D : Nat) (hD : D = 1 ∨ D = 3) (ms : Coordinate)
    (hms : ms.length = D) (e o : Coordinate) (d : Nat) (hd : d < D) :
    ∀ rest : List TVol,
      ∃ ss, mapME (fun w => entityStride D ms w e o) rest = Except.ok ss ∧
        (∀ buf ∈ ss, buf.length = 3) ∧
        ss.map (fun buf => buf.getD d 0) =
          rest.map (fun w =>
            max (candidate w (w.template.shift o) e o d) (ms.getD d 0)) := by
  intro rest
  induction rest with
  | nil => exact ⟨[], rfl, by simp, by simp⟩
  | cons w ws ih =>
    obtain ⟨s, hs, hlen3, hchar⟩ := entityStride_spec D hD ms hms w e o
    obtain ⟨ss, hss, hl, hm⟩ := ih
    refine ⟨s :: ss, by simp [mapME, hs, hss], ?_, ?_⟩
    · intro buf hb
      rcases List.mem_cons.mp hb with hb1 | hb2
      · rw [hb1]; exact hlen3
      · exact hl buf hb2
    · simp only [List.map_cons, hm, hchar d hd]

/-- C3: at any offset of a walk in one or three dimensions, the stride
used for the next step is, per axis, the minimum over entities of the raw
candidate (request begin minus chunk begin while the chunk far edge is
short of the request far edge, otherwise walk end minus current offset),
clamped below by min_stride. -/
theorem C3_stride_formula (vols : List TVol) (v : TVol) (rest : List TVol)
    (hv : vols = v :: rest) (D : Nat) (hD : D = 1 ∨ D = 3) (ms : Coordinate)
    (hms : ms.length = D) (endv offset : Coordinate) (d : Nat) (hd : d < D) :
    ∃ s, stepStride D ms vols endv offset = Except.ok s ∧
      s.getD d 0 = max
        ((rest.map (fun w => candidate w (w.template.shift offset) endv offset d)).foldl
          min (candidate v (v.template.shift offset) endv offset d))
        (ms.getD d 0) ∧
      ∀ w : TVol, candidate w (w.template.shift offset) endv offset d =
        if (Roi.shift w.template offset).get_end.getD d 0 < w.request.get_end.getD d 0
        then w.request.get_begin.getD d 0 - (Roi.shift w.template offset).get_begin.getD d 0
        else endv.getD d 0 - offset.getD d 0 := by
  subst hv
  obtain ⟨s0, hs0, hlen0, hchar0⟩ := entityStride_spec D hD ms hms v endv offset
  obtain ⟨ss, hss, hl, hm⟩ := mapME_stride_spec D hD ms hms endv offset d hd rest
  have hstep : stepStride D ms (v :: rest) endv offset = Except.ok (cminList s0 ss) := by
    simp [stepStride, mapME, hs0, hss]
  refine ⟨cminList s0 ss, hstep, ?_, fun w => rfl⟩
  have hall : ∀ c ∈ ss, c.length = s0.length := fun c hc => by rw [hl c hc, hlen0]
  have hd3 : d < s0.length := by
    rw [hlen0]
    rcases hD with h | h
    · omega
    · omega
  have h1 : (cminList s0 ss).getD d 0 =
      ss.foldl (fun a c => min a (c.getD d 0)) (s0.getD d 0) := by
    rw [cminList_eq]
    exact foldl_zip_getD min ss s0 d hd3 hall
  have h2 : ss.foldl (fun a c => min a (c.getD d 0)) (s0.getD d 0) =
      (ss.map (fun c => c.getD d 0)).foldl min (s0.getD d 0) := by
    rw [List.foldl_map]
  have h3 : rest.map (fun w =>
      max (candidate w (w.template.shift offset) endv offset d) (ms.getD d 0)) =
      (rest.map (fun w => candidate w (w.template.shift offset) endv offset d)).map
        (fun x => max x (ms.getD d 0)) := by
    simp [List.map_map, Function.comp]
  rw [h1, h2, hm, hchar0 d hd, h3, foldl_min_max_comm]

/-- C3 witness: on the section 8.7 scenario at visited offset 90 the
stride component is the clamp of the candidate 10 up to min_stride 30. -/
theorem C3_stride_formula_witness :
    ∃ s, stepStride 1 [30] c2vols [100] [90] = Except.ok s ∧
      s.getD 0 0 = max
        (([] : List TVol).map (fun w => candidate w (w.template.shift [90]) [100] [90] 0) |>.foldl
          min (candidate c2vol (c2vol.template.shift [90]) [100] [90] 0))
        (([30] : Coordinate).getD 0 0) ∧
      ∀ w : TVol, candidate w (w.template.shift [90]) [100] [90] 0 =
        if (Roi.shift w.template [90]).get_end.getD 0 0 < w.request.get_end.getD 0 0
        then w.request.get_begin.getD 0 0 - (Roi.shift w.template [90]).get_begin.getD 0 0
        else ([100] : Coordinate).getD 0 0 - ([90] : Coordinate).getD 0 0 :=
  C3_stride_formula c2vols c2vol [] rfl 1 (Or.inl rfl) [30] (by decide) [100] [90] 0
    (by decide)

/-- Equal-length vectors with equal components are equal. -/
lemma coord_ext (x y : Coordinate) (hl : x.length = y.length)
    (h : ∀ d, d < x.length → x.getD d 0 = y.getD d 0) : x = y := by
  refine List.ext_getElem hl ?_
  intro i h1 h2
  have hx := h i h1
  rwa [List.getD_eq_getElem x 0 h1, List.getD_eq_getElem y 0 h2] at hx

/-- Two boolean values agreeing as propositions are equal. -/
lemma bool_eq_of_iff {a b : Bool} (h : a = true ↔ b = true) : a = b := by
  cases a <;> cases b <;> simp_all

/-- Membership in a region, spelled out per axis with the end written as
offset plus shape. -/
lemma containsPoint_iff (r : Roi) (p : Coordinate) (hr : r.shape.length = r.offset.length) :
    r.containsPoint p = true ↔ p.length = r.offset.length ∧
      ∀ d, d < r.offset.length →
        r.offset.getD d 0 ≤ p.getD d 0 ∧
        p.getD d 0 < r.offset.getD d 0 + r.shape.getD d 0 := by
  have hend : ∀ d, d < r.offset.length →
      (Roi.get_end r).getD d 0 = r.offset.getD d 0 + r.shape.getD d 0 := by
    intro d hd
    exact cadd_getD _ _ d hd (by rw [hr]; exact hd)
  constructor
  · intro h
    simp only [Roi.containsPoint, Bool.and_eq_true, decide_eq_true_eq, List.all_eq_true,
      List.mem_range] at h
    refine ⟨h.1, ?_⟩
    intro d hd
    exact ⟨(h.2 d hd).1, by rw [← hend d hd]; exact (h.2 d hd).2⟩
  · rintro ⟨h1, h2⟩
    simp only [Roi.containsPoint, Bool.and_eq_true, decide_eq_true_eq, List.all_eq_true,
      List.mem_range]
    exact ⟨h1, fun d hd => ⟨(h2 d hd).1, by rw [hend d hd]; exact (h2 d hd).2⟩⟩

/-- A successful intersection is the box of componentwise maximal begins
and minimal ends. -/
lemma intersect_some_struct (a b common : Roi) (hc : a.intersect b = some common) :
    common = ⟨cmax2 a.get_begin b.get_begin,
      csub (cmin2 a.get_end b.get_end) (cmax2 a.get_begin b.get_begin)⟩ := by
  rw [Roi.intersect] at hc
  split at hc
  · injection hc with h
    exact h.symm
  · cases hc

/-- A successful intersection of full-length regions has full-length
offset and shape. -/
lemma intersect_some_lengths (a b common : Roi) (D : Nat)
    (hA : a.offset.length = D) (hA2 : a.shape.length = D)
    (hB : b.offset.length = D) (hB2 : b.shape.length = D)
    (hc : a.intersect b = some common) :
    common.offset.length = D ∧ common.shape.length = D := by
  have hst := intersect_some_struct a b common hc
  subst hst
  have h1 : (Roi.get_end a).length = D := cadd_length _ _ D hA hA2
  have h2 : (Roi.get_end b).length = D := cadd_length _ _ D hB hB2
  have h3 : (cmin2 a.get_end b.get_end).length = D := by
    simp [cmin2, List.length_zipWith, h1, h2]
  have h4 : (cmax2 a.get_begin b.get_begin).length = D := by
    simp [cmax2, List.length_zipWith, Roi.get_begin, hA, hB]
  exact ⟨h4, csub_length _ _ D h3 h4⟩

/-- Translating a region and a point by the same vector does not change
membership. -/
lemma containsPoint_unshift (r : Roi) (t p : Coordinate) (D : Nat)
    (ho : r.offset.length = D) (hs : r.shape.length = D) (ht : t.length = D)
    (hp : p.length = D) :
    (r.unshift t).containsPoint (csub p t) = r.containsPoint p := by
  apply bool_eq_of_iff
  have huo : (Roi.unshift r t).offset.length = D := csub_length r.offset t D ho ht
  have hps : (csub p t).length = D := csub_length p t D hp ht
  rw [containsPoint_iff _ _ (by rw [huo]; exact hs),
    containsPoint_iff _ _ (by rw [hs, ho])]
  constructor
  · rintro ⟨_, hin⟩
    refine ⟨by rw [hp, ho], ?_⟩
    intro d hd
    have hdD : d < D := by rw [ho] at hd; exact hd
    have h1 := hin d (by rw [huo]; exact hdD)
    have e1 : (Roi.unshift r t).offset.getD d 0 = r.offset.getD d 0 - t.getD d 0 :=
      csub_getD r.offset t d (by rw [ho]; exact hdD) (by rw [ht]; exact hdD)
    have e2 : (csub p t).getD d 0 = p.getD d 0 - t.getD d 0 :=
      csub_getD p t d (by rw [hp]; exact hdD) (by rw [ht]; exact hdD)
    rw [e1, e2] at h1
    have h2 : (Roi.unshift r t).shape.getD d 0 = r.shape.getD d 0 := rfl
    rw [h2] at h1
    constructor
    · omega
    · omega
  · rintro ⟨_, hin⟩
    refine ⟨by rw [hps, huo], ?_⟩
    intro d hd
    have hdD : d < D := by rw [huo] at hd; exact hd
    have h1 := hin d (by rw [ho]; exact hdD)
    have e1 : (Roi.unshift r t).offset.getD d 0 = r.offset.getD d 0 - t.getD d 0 :=
      csub_getD r.offset t d (by rw [ho]; exact hdD) (by rw [ht]; exact hdD)
    have e2 : (csub p t).getD d 0 = p.getD d 0 - t.getD d 0 :=
      csub_getD p t d (by rw [hp]; exact hdD) (by rw [ht]; exact hdD)
    have h2 : (Roi.unshift r t).shape.getD d 0 = r.shape.getD d 0 := rfl
    rw [e1, e2, h2]
    constructor
    · omega
    · omega

/-- A point lies in a successful intersection exactly when it lies in
both regions. -/
lemma intersect_containsPoint (a b common : Roi) (D : Nat)
    (hA : a.offset.length = D) (hA2 : a.shape.length = D)
    (hB : b.offset.length = D) (hB2 : b.shape.length = D)
    (hc : a.intersect b = some common) (p : Coordinate) (hp : p.length = D) :
    common.containsPoint p = (a.containsPoint p && b.containsPoint p) := by
  obtain ⟨hco, hcs⟩ := intersect_some_lengths a b common D hA hA2 hB hB2 hc
  have hst := intersect_some_struct a b common hc
  have hea : (Roi.get_end a).length = D := cadd_length _ _ D hA hA2
  have heb : (Roi.get_end b).length = D := cadd_length _ _ D hB hB2
  apply bool_eq_of_iff
  rw [Bool.and_eq_true, containsPoint_iff _ _ (by rw [hcs, hco]),
    containsPoint_iff _ _ (by rw [hA2, hA]), containsPoint_iff _ _ (by rw [hB2, hB])]
  have key : ∀ d, d < D →
      ((common.offset.getD d 0 ≤ p.getD d 0 ∧
        p.getD d 0 < common.offset.getD d 0 + common.shape.getD d 0) ↔
      ((a.offset.getD d 0 ≤ p.getD d 0 ∧
        p.getD d 0 < a.offset.getD d 0 + a.shape.getD d 0) ∧
       (b.offset.getD d 0 ≤ p.getD d 0 ∧
        p.getD d 0 < b.offset.getD d 0 + b.shape.getD d 0))) := by
    intro d hd
    have hBd : common.offset.getD d 0 = max (a.offset.getD d 0) (b.offset.getD d 0) := by
      rw [hst]
      exact getD_zipWith max a.get_begin b.get_begin d
        (by show d < a.offset.length; rw [hA]; exact hd)
        (by show d < b.offset.length; rw [hB]; exact hd)
    have hEd : (cmin2 a.get_end b.get_end).getD d 0 =
        min ((Roi.get_end a).getD d 0) ((Roi.get_end b).getD d 0) :=
      getD_zipWith min a.get_end b.get_end d (by rw [hea]; exact hd) (by rw [heb]; exact hd)
    have hSd : common.shape.getD d 0 =
        min ((Roi.get_end a).getD d 0) ((Roi.get_end b).getD d 0) -
          max (a.offset.getD d 0) (b.offset.getD d 0) := by
      rw [hst]
      have := csub_getD (cmin2 a.get_end b.get_end) (cmax2 a.get_begin b.get_begin) d
        (by rw [show (cmin2 a.get_end b.get_end).length = D from by
          simp [cmin2, List.length_zipWith, hea, heb]]; exact hd)
        (by rw [show (cmax2 a.get_begin b.get_begin).length = D from by
          simp [cmax2, List.length_zipWith, Roi.get_begin, hA, hB]]; exact hd)
      rw [this, hEd]
      have hBd2 : (cmax2 a.get_begin b.get_begin).getD d 0 =
          max (a.offset.getD d 0) (b.offset.getD d 0) :=
        getD_zipWith max a.get_begin b.get_begin d
          (by show d < a.offset.length; rw [hA]; exact hd)
          (by show d < b.offset.length; rw [hB]; exact hd)
      rw [hBd2]
    have hae : (Roi.get_end a).getD d 0 = a.offset.getD d 0 + a.shape.getD d 0 :=
      cadd_getD _ _ d (by rw [hA]; exact hd) (by rw [hA2]; exact hd)
    have hbe : (Roi.get_end b).getD d 0 = b.offset.getD d 0 + b.shape.getD d 0 :=
      cadd_getD _ _ d (by rw [hB]; exact hd) (by rw [hB2]; exact hd)
    rw [hBd, hSd, hae, hbe]
    have hsum : max (a.offset.getD d 0) (b.offset.getD d 0) +
        (min (a.offset.getD d 0 + a.shape.getD d 0) (b.offset.getD d 0 + b.shape.getD d 0) -
          max (a.offset.getD d 0) (b.offset.getD d 0)) =
        min (a.offset.getD d 0 + a.shape.getD d 0)
          (b.offset.getD d 0 + b.shape.getD d 0) := by
      omega
    rw [hsum, max_le_iff, lt_min_iff]
    constructor
    · rintro ⟨⟨ha1, hb1⟩, ha2, hb2⟩
      exact ⟨⟨ha1, ha2⟩, hb1, hb2⟩
    · rintro ⟨⟨ha1, ha2⟩, hb1, hb2⟩
      exact ⟨⟨ha1, hb1⟩, ha2, hb2⟩
  constructor
  · rintro ⟨_, hin⟩
    refine ⟨⟨by rw [hp, hA], ?_⟩, by rw [hp, hB], ?_⟩
    · intro d hd
      have hdD : d < D := by rw [hA] at hd; exact hd
      exact ((key d hdD).mp (hin d (by rw [hco]; exact hdD))).1
    · intro d hd
      have hdD : d < D := by rw [hB] at hd; exact hd
      exact ((key d hdD).mp (hin d (by rw [hco]; exact hdD))).2
  · rintro ⟨⟨_, hina⟩, _, hinb⟩
    refine ⟨by rw [hp, hco], ?_⟩
    intro d hd
    have hdD : d < D := by rw [hco] at hd; exact hd
    exact (key d hdD).mpr ⟨hina d (by rw [hA]; exact hdD), hinb d (by rw [hB]; exact hdD)⟩

/-- Chunk.__fill (chunk.py lines 86 to 103), on arrays modelled as value
functions over index vectors.  The destination carries lead extra leading
(channel) axes before the spatial axes; the common region is the
intersection of the two regions, translated into local coordinates of
both arrays, and the corresponding block of the source is assigned into
the destination, leading axes copied in full (the prepended full slices
of lines 99 to 101).  Without an intersection the destination is
returned unchanged (lines 90 to 91). -/
def fillVal (lead : Nat) (a b : List Int → Int) (roiA roiB : Roi) : List Int → Int :=
  match roiA.intersect roiB with
  | none => a
  | some common =>
    fun idx =>
      if (common.unshift roiA.offset).containsPoint (idx.drop lead)
      then b (idx.take lead ++
        cadd (csub (idx.drop lead) (common.unshift roiA.offset).offset)
          (common.unshift roiB.offset).offset)
      else a idx

/-- Unfolding the fill at one index when the regions intersect. -/
lemma fillVal_apply (lead : Nat) (a b : List Int → Int) (roiA roiB common : Roi)
    (hc : roiA.intersect roiB = some common) (idx : List Int) :
    fillVal lead a b roiA roiB idx =
      if (common.unshift roiA.offset).containsPoint (idx.drop lead)
      then b (idx.take lead ++
        cadd (csub (idx.drop lead) (common.unshift roiA.offset).offset)
          (common.unshift roiB.offset).offset)
      else a idx := by
  simp [fillVal, hc]

/-- Filling with disjoint regions is the identity on the destination. -/
lemma fillVal_none (lead : Nat) (a b : List Int → Int) (roiA roiB : Roi)
    (hn : roiA.intersect roiB = none) : fillVal lead a b roiA roiB = a := by
  simp [fillVal, hn]

/-- At an index whose spatial point lies in the intersection, the fill
reads the source at the same global point, with the leading channel axes
passed through. -/
lemma fillVal_in (D lead : Nat) (roiA roiB common : Roi)
    (hA : roiA.offset.length = D) (hA2 : roiA.shape.length = D)
    (hB : roiB.offset.length = D) (hB2 : roiB.shape.length = D)
    (hc : roiA.intersect roiB = some common)
    (p : Coordinate) (hp : p.length = D) (hin : common.containsPoint p = true)
    (c : Coordinate) (hcl : c.length = lead) (a b : List Int → Int) :
    fillVal lead a b roiA roiB (c ++ csub p roiA.offset) =
      b (c ++ csub p roiB.offset) := by
  obtain ⟨hco, hcs⟩ := intersect_some_lengths roiA roiB common D hA hA2 hB hB2 hc
  have hdrop : (c ++ csub p roiA.offset).drop lead = csub p roiA.offset := by
    rw [← hcl]
    exact List.drop_left c _
  have htake : (c ++ csub p roiA.offset).take lead = c := by
    rw [← hcl]
    exact List.take_left c _
  rw [fillVal_apply lead a b roiA roiB common hc, hdrop, htake]
  have hcond : (common.unshift roiA.offset).containsPoint (csub p roiA.offset) = true := by
    rw [containsPoint_unshift common roiA.offset p D hco hcs hA hp]
    exact hin
  rw [hcond]
  simp only [if_true]
  have l1 : (csub p roiA.offset).length = D := csub_length p _ D hp hA
  have l2 : ((Roi.unshift common roiA.offset).offset).length = D :=
    csub_length _ _ D hco hA
  have l3 : (csub (csub p roiA.offset) (Roi.unshift common roiA.offset).offset).length = D :=
    csub_length _ _ D l1 l2
  have l4 : ((Roi.unshift common roiB.offset).offset).length = D :=
    csub_length _ _ D hco hB
  have l5 : (cadd (csub (csub p roiA.offset) (Roi.unshift common roiA.offset).offset)
      (Roi.unshift common roiB.offset).offset).length = D := cadd_length _ _ D l3 l4
  have l6 : (csub p roiB.offset).length = D := csub_length p _ D hp hB
  have heq : cadd (csub (csub p roiA.offset) (Roi.unshift common roiA.offset).offset)
      (Roi.unshift common roiB.offset).offset = csub p roiB.offset := by
    apply coord_ext _ _ (by rw [l5, l6])
    intro d hd
    have hdD : d < D := by rw [l5] at hd; exact hd
    have e1 : (csub p roiA.offset).getD d 0 = p.getD d 0 - roiA.offset.getD d 0 :=
      csub_getD p _ d (by rw [hp]; exact hdD) (by rw [hA]; exact hdD)
    have e2 : ((Roi.unshift common roiA.offset).offset).getD d 0 =
        common.offset.getD d 0 - roiA.offset.getD d 0 :=
      csub_getD _ _ d (by rw [hco]; exact hdD) (by rw [hA]; exact hdD)
    have e3 : ((Roi.unshift common roiB.offset).offset).getD d 0 =
        common.offset.getD d 0 - roiB.offset.getD d 0 :=
      csub_getD _ _ d (by rw [hco]; exact hdD) (by rw [hB]; exact hdD)
    have e4 : (csub (csub p roiA.offset) (Roi.unshift common roiA.offset).offset).getD d 0 =
        (csub p roiA.offset).getD d 0 -
          ((Roi.unshift common roiA.offset).offset).getD d 0 :=
      csub_getD _ _ d (by rw [l1]; exact hdD) (by rw [l2]; exact hdD)
    have e5 : (cadd (csub (csub p roiA.offset) (Roi.unshift common roiA.offset).offset)
        (Roi.unshift common roiB.offset).offset).getD d 0 =
        (csub (csub p roiA.offset) (Roi.unshift common roiA.offset).offset).getD d 0 +
          ((Roi.unshift common roiB.offset).offset).getD d 0 :=
      cadd_getD _ _ d (by rw [l3]; exact hdD) (by rw [l4]; exact hdD)
    have e6 : (csub p roiB.offset).getD d 0 = p.getD d 0 - roiB.offset.getD d 0 :=
      csub_getD p _ d (by rw [hp]; exact hdD) (by rw [hB]; exact hdD)
    rw [e5, e4, e1, e2, e3, e6]
    omega
  rw [heq]

/-- At an index whose spatial point lies outside the intersection, the
fill leaves the destination value unchanged. -/
lemma fillVal_out (D lead : Nat) (roiA roiB common : Roi)
    (hA : roiA.offset.length = D) (hA2 : roiA.shape.length = D)
    (hB : roiB.offset.length = D) (hB2 : roiB.shape.length = D)
    (hc : roiA.intersect roiB = some common)
    (p : Coordinate) (hp : p.length = D) (hout : common.containsPoint p = false)
    (c : Coordinate) (hcl : c.length = lead) (a b : List Int → Int) :
    fillVal lead a b roiA roiB (c ++ csub p roiA.offset) =
      a (c ++ csub p roiA.offset) := by
  obtain ⟨hco, hcs⟩ := intersect_some_lengths roiA roiB common D hA hA2 hB hB2 hc
  have hdrop : (c ++ csub p roiA.offset).drop lead = csub p roiA.offset := by
    rw [← hcl]
    exact List.drop_left c _
  rw [fillVal_apply lead a b roiA roiB common hc, hdrop]
  have hcond : (common.unshift roiA.offset).containsPoint (csub p roiA.offset) = false := by
    rw [containsPoint_unshift common roiA.offset p D hco hcs hA hp]
    exact hout
  rw [hcond]
  simp only [Bool.false_eq_true, if_false]

/-- C6: the merge copies exactly the intersection of the outer request
region with the sub-batch region.  If the regions do not intersect the
sub-batch is skipped; otherwise every destination index whose spatial
point lies in the intersection (membership in the intersection being
exactly membership in both regions) receives the source value at the same
global point, translated into each local index space with leading channel
axes copied in full, every other index keeps its value, and a later merge
overwrites an earlier one wherever their regions overlap. -/
theorem C6_fill_merge (D : Nat) (roiA roiB : Roi)
    (hA : roiA.offset.length = D) (hA2 : roiA.shape.length = D)
    (hB : roiB.offset.length = D) (hB2 : roiB.shape.length = D) :
    (∀ (lead : Nat) (a b : List Int → Int),
      roiA.intersect roiB = none → fillVal lead a b roiA roiB = a) ∧
    (∀ common, roiA.intersect roiB = some common →
      ∀ p : Coordinate, p.length = D →
        common.containsPoint p = (roiA.containsPoint p && roiB.containsPoint p) ∧
        ∀ (lead : Nat) (c : Coordinate), c.length = lead → ∀ a b : List Int → Int,
          (common.containsPoint p = true →
            fillVal lead a b roiA roiB (c ++ csub p roiA.offset) =
              b (c ++ csub p roiB.offset)) ∧
          (common.containsPoint p = false →
            fillVal lead a b roiA roiB (c ++ csub p roiA.offset) =
              a (c ++ csub p roiA.offset))) ∧
    (∀ common, roiA.intersect roiB = some common →
      ∀ p : Coordinate, p.length = D → common.containsPoint p = true →
      ∀ (lead : Nat) (c : Coordinate), c.length = lead →
      ∀ (roiB1 : Roi) (a b1 b2 : List Int → Int),
        fillVal lead (fillVal lead a b1 roiA roiB1) b2 roiA roiB
          (c ++ csub p roiA.offset) = b2 (c ++ csub p roiB.offset)) := by
  refine ⟨?_, ?_, ?_⟩
  · intro lead a b hn
    exact fillVal_none lead a b roiA roiB hn
  · intro common hc p hp
    refine ⟨intersect_containsPoint roiA roiB common D hA hA2 hB hB2 hc p hp, ?_⟩
    intro lead c hcl a b
    exact ⟨fun hin => fillVal_in D lead roiA roiB common hA hA2 hB hB2 hc p hp hin c hcl a b,
      fun hout => fillVal_out D lead roiA roiB common hA hA2 hB hB2 hc p hp hout c hcl a b⟩
  · intro common hc p hp hin lead c hcl roiB1 a b1 b2
    exact fillVal_in D lead roiA roiB common hA hA2 hB hB2 hc p hp hin c hcl
      (fillVal lead a b1 roiA roiB1) b2

/-- C6 witness: two overlapping 1-D sub-batches filled into an output of
region 0 to 10; at global point 6, inside the second intersection, the
later fill wins. -/
theorem C6_fill_merge_witness :
    fillVal 0 (fillVal 0 (fun _ => 0) (fun _ => 3) (⟨[0], [10]⟩ : Roi) ⟨[4], [4]⟩)
      (fun _ => 7) (⟨[0], [10]⟩ : Roi) ⟨[5], [4]⟩
      ([] ++ csub [6] ([0] : Coordinate)) = (fun _ => (7 : Int)) ([] ++ csub [6] [5]) :=
  (C6_fill_merge 1 ⟨[0], [10]⟩ ⟨[5], [4]⟩ rfl rfl rfl rfl).2.2 ⟨[5], [4]⟩ (by decide)
    [6] (by decide) (by decide) 0 [] rfl ⟨[4], [4]⟩ (fun _ => 0) (fun _ => 3) (fun _ => 7)

/-- The volume types of gunpowder.volume referenced by the nodes under
src (GT_BM and exclusive-zone types behave like ALPHA_MASK for chunk.py:
they are absent from its interpolate table). -/
inductive VolumeType where
  | RAW
  | GT_LABELS
  | GT_AFFINITIES
  | GT_MASK
  | PRED_AFFINITIES
  | ALPHA_MASK
deriving Repr, DecidableEq

/-- A realized volume: data as a value function over index vectors with
lead extra leading (channel) axes, its region, resolution and
interpolation flag (gunpowder.volume.Volume). -/
structure Volume where
  lead : Nat
  data : List Int → Int
  roi : Roi
  resolution : Coordinate
  interpolate : Bool

/-- A batch maps volume types to realized volumes. -/
abbrev Batch := List (VolumeType × Volume)

/-- A request maps volume types to desired regions. -/
abbrev Request := List (VolumeType × Roi)

/-- Keyed lookup in an association list (python dict indexing). -/
def alookup {α : Type} : List (VolumeType × α) → VolumeType → Option α
  | [], _ => none
  | (k, x) :: rest, vt => if k = vt then some x else alookup rest vt

/-- The lookup failures of Chunk.provide: a volume type missing from the
interpolate table (chunk.py line 78), RAW missing from the first chunk
(line 82), or a chunk volume type missing from the output batch or the
request during fill (lines 58 to 59). -/
inductive LookupErr where
  | interp (vt : VolumeType)
  | raw
  | fillKey (vt : VolumeType)
deriving Repr, DecidableEq

/-- chunk.py lines 72 to 78: the fixed interpolation table. -/
def interpTable : VolumeType → Option Bool
  | VolumeType.RAW => some true
  | VolumeType.GT_LABELS => some false
  | VolumeType.GT_AFFINITIES => some false
  | VolumeType.GT_MASK => some false
  | VolumeType.PRED_AFFINITIES => some false
  | VolumeType.ALPHA_MASK => none

/-- chunk.py lines 66 to 83: allocate one output volume for a requested
entity.  The interpolate lookup happens before the Volume construction
whose resolution argument reads the RAW entry of the first chunk, so a
missing table entry is reported first.  Affinity types get one leading
channel axis (the (3,)+shape of line 68); data is zero-initialized. -/
def setupVol (chunk : Batch) (pr : VolumeType × Roi) :
    Except LookupErr (VolumeType × Volume) :=
  match interpTable pr.1 with
  | none => Except.error (LookupErr.interp pr.1)
  | some ip =>
    match alookup chunk VolumeType.RAW with
    | none => Except.error LookupErr.raw
    | some rawv => Except.ok (pr.1,
      { lead := if pr.1 = VolumeType.PRED_AFFINITIES ∨ pr.1 = VolumeType.GT_AFFINITIES
          then 1 else 0,
        data := fun _ => 0,
        roi := pr.2,
        resolution := rawv.resolution,
        interpolate := ip })

/-- Chunk.__setup_batch (chunk.py lines 63 to 84): allocate all output
volumes of the request, in request order. -/
def setupBatch (request : Request) (chunk : Batch) : Except LookupErr Batch :=
  mapME (setupVol chunk) request

/-- Replace the volume stored under a type. -/
def updateVT : Batch → VolumeType → Volume → Batch
  | [], _, _ => []
  | (k, x) :: rest, vt, nv =>
    if k = vt then (k, nv) :: rest else (k, x) :: updateVT rest vt nv

/-- chunk.py lines 56 to 59: fill every volume of a completed chunk into
the output batch, looking up the output volume and the requested region
by volume type. -/
def mergeChunk (request : Request) : Batch → Batch → Except LookupErr Batch
  | bat, [] => Except.ok bat
  | bat, (vt, vol) :: rest =>
    match alookup bat vt, alookup request vt with
    | some bv, some rroi =>
      mergeChunk request (updateVT bat vt
        { bv with data := fillVal bv.lead bv.data vol.data rroi vol.roi }) rest
    | _, _ => Except.error (LookupErr.fillKey vt)

/-- One iteration of the provide loop (chunk.py lines 44 to 59): allocate
the output from the first chunk, then merge the chunk. -/
def provideStep (outer : Request) (acc : Option Batch) (chunk : Batch) :
    Except LookupErr Batch :=
  match acc with
  | none =>
    match setupBatch outer chunk with
    | Except.error e => Except.error e
    | Except.ok b0 => mergeChunk outer b0 chunk
  | some b0 => mergeChunk outer b0 chunk

/-- Chunk.provide in single-worker mode (chunk.py lines 41 to 61,
num_workers equal 1): dequeue the scheduled sub-requests in order, call
upstream synchronously on each, and merge.  The second component records
the upstream calls actually made, in order. -/
def provideTrace (up : Request → Batch) (outer : Request) :
    List Request → Option Batch → Except LookupErr (Option Batch) × List Request
  | [], acc => (Except.ok acc, [])
  | q :: rest, acc =>
    match provideStep outer acc (up q) with
    | Except.error e => (Except.error e, [q])
    | Except.ok b1 =>
      ((provideTrace up outer rest (some b1)).1,
        q :: (provideTrace up outer rest (some b1)).2)

/-- The engine state after setup: the queue of scheduled sub-requests and
the recorded schedule length (chunk.py lines 111 and 165). -/
structure EngineState where
  requests : List Request
  num_requests : Nat
deriving DecidableEq

/-- Chunk.setup records the schedule and its length once. -/
def setupState (queue : List Request) : EngineState := ⟨queue, queue.length⟩

/-- One call of Chunk.provide against the engine state: it performs
num_requests blocking queue reads (chunk.py lines 44 and 50), so it
completes only when the queue still holds that many entries; blocking
forever is modelled as none.  The requests consumed are removed; nothing
refills the queue. -/
def provideCall (up : Request → Batch) (outer : Request) (s : EngineState) :
    Option (Except LookupErr (Option Batch) × EngineState) :=
  if s.num_requests ≤ s.requests.length
  then some ((provideTrace up outer (s.requests.take s.num_requests) none).1,
    ⟨s.requests.drop s.num_requests, s.num_requests⟩)
  else none

/-- A run that completes made exactly the scheduled upstream calls, in
submission order. -/
lemma provideTrace_ok_trace (up : Request → Batch) (outer : Request) :
    ∀ (queue : List Request) (acc : Option Batch) (res : Option Batch),
      (provideTrace up outer queue acc).1 = Except.ok res →
      (provideTrace up outer queue acc).2 = queue := by
  intro queue
  induction queue with
  | nil => intro acc res _; rfl
  | cons q rest ih =>
    intro acc res h
    simp only [provideTrace] at h ⊢
    cases hs : provideStep outer acc (up q) with
    | error e => simp [hs] at h
    | ok b1 =>
      simp only [hs] at h ⊢
      rw [ih (some b1) res h]

/-- Two upstreams that answer every request identically produce identical
runs. -/
lemma provideTrace_congr (up up2 : Request → Batch) (outer : Request)
    (h : ∀ r, up2 r = up r) :
    ∀ (queue : List Request) (acc : Option Batch),
      provideTrace up2 outer queue acc = provideTrace up outer queue acc := by
  intro queue
  induction queue with
  | nil => intro acc; rfl
  | cons q rest ih =>
    intro acc
    simp only [provideTrace, h q, ih]

/-- C7: in single-worker mode provide dequeues the scheduled sub-requests
and calls upstream synchronously in exact submission order (a completed
run has called upstream on exactly the schedule, in order), and the path
is deterministic: runs against upstreams with identical behavior yield
identical output batches and traces. -/
theorem C7_single_worker_determinism (up : Request → Batch) (outer : Request)
    (queue : List Request) :
    (∀ (acc res : Option Batch), (provideTrace up outer queue acc).1 = Except.ok res →
      (provideTrace up outer queue acc).2 = queue) ∧
    (∀ up2 : Request → Batch, (∀ r, up2 r = up r) →
      ∀ acc : Option Batch,
        provideTrace up2 outer queue acc = provideTrace up outer queue acc) := by
  constructor
  · intro acc res h
    exact provideTrace_ok_trace up outer queue acc res h
  · intro up2 h acc
    exact provideTrace_congr up up2 outer h queue acc

/-- A concrete request for the provide witnesses. -/
def c7req : Request := [(VolumeType.RAW, ⟨[0], [4]⟩)]

/-- A concrete upstream answer for the provide witnesses. -/
def c7vol : Volume := ⟨0, fun _ => 5, ⟨[0], [4]⟩, [1], true⟩

/-- A concrete deterministic upstream for the provide witnesses. -/
def c7up : Request → Batch := fun _ => [(VolumeType.RAW, c7vol)]

/-- C7 witness: the completed single-worker run over a one-element
schedule called upstream exactly on that schedule. -/
theorem C7_single_worker_determinism_witness :
    (provideTrace c7up c7req [c7req] none).2 = [c7req] :=
  (C7_single_worker_determinism c7up c7req [c7req]).1 none _ rfl

/-- C8 amended: the schedule is built once at setup and fully consumed by
the first provide invocation; the queue is then empty while num_requests
is unchanged, so a second provide call blocks forever on the exhausted
queue instead of building a fresh schedule. -/
theorem C8_schedule_exhausted (up : Request → Batch) (outer : Request)
    (queue : List Request) (hne : queue ≠ []) :
    provideCall up outer (setupState queue) =
      some ((provideTrace up outer queue none).1,
        ⟨[], queue.length⟩) ∧
    provideCall up outer ⟨[], queue.length⟩ = none := by
  constructor
  · simp [provideCall, setupState, List.take_length, List.drop_length]
  · have hpos : 0 < queue.length := List.length_pos.mpr hne
    show provideCall up outer ⟨[], queue.length⟩ = none
    unfold provideCall
    rw [if_neg]
    intro hcon
    simp only [List.length_nil, Nat.le_zero] at hcon
    omega

/-- C8 witness: amended behavior on a concrete one-request schedule. -/
theorem C8_schedule_exhausted_witness :
    provideCall c7up c7req (setupState [c7req]) =
      some ((provideTrace c7up c7req [c7req] none).1, ⟨[], 1⟩) ∧
    provideCall c7up c7req ⟨[], 1⟩ = none :=
  C8_schedule_exhausted c7up c7req [c7req] (by decide)

/-- C8: after the first provide call consumes the schedule, a second call
on the same engine returns no batch (it blocks on the empty queue),
refuting the claim that a fresh schedule is built and the second call
succeeds. -/
theorem C8_second_call_counterexample :
    Option.map Prod.snd (provideCall c7up c7req (setupState [c7req])) =
      some (⟨[], 1⟩ : EngineState) ∧
    provideCall c7up c7req ⟨[], 1⟩ = none := by
  exact ⟨rfl, rfl⟩

/-- Splitting a successful fallible map over a cons cell. -/
lemma mapME_cons_ok {ε α β : Type} (f : α → Except ε β) (x : α) (xs : List α)
    (ys : List β) (h : mapME f (x :: xs) = Except.ok ys) :
    ∃ y ys2, f x = Except.ok y ∧ mapME f xs = Except.ok ys2 ∧ ys = y :: ys2 := by
  cases hf : f x with
  | error e => simp [mapME, hf] at h
  | ok y =>
    cases hr : mapME f xs with
    | error e => simp [mapME, hf, hr] at h
    | ok ys2 =>
      simp [mapME, hf, hr] at h
      exact ⟨y, ys2, rfl, rfl, h.symm⟩

/-- C10: output allocation reads the resolution from the RAW entry of the
first completed chunk for every requested entity.  With a nonempty
request and no RAW entry in the first chunk, or with a requested entity
type outside the fixed interpolation table, allocation fails with a
lookup error and provide propagates it instead of returning a batch; on
success every allocated volume carries the RAW resolution of the first
chunk. -/
theorem C10_output_allocation (request : Request) (chunk : Batch) :
    (request ≠ [] → alookup chunk VolumeType.RAW = none →
      ∃ e, setupBatch request chunk = Except.error e) ∧
    (∀ vt roi, (vt, roi) ∈ request → interpTable vt = none →
      ∃ e, setupBatch request chunk = Except.error e) ∧
    (∀ rawv b, alookup chunk VolumeType.RAW = some rawv →
      setupBatch request chunk = Except.ok b →
      ∀ pr ∈ b, pr.2.resolution = rawv.resolution) ∧
    (∀ (up : Request → Batch) (q : Request) (qs : List Request) (e : LookupErr),
      setupBatch request (up q) = Except.error e →
      (provideTrace up request (q :: qs) none).1 = Except.error e) := by
  refine ⟨?_, ?_, ?_, ?_⟩
  · intro hne hraw
    cases request with
    | nil => exact absurd rfl hne
    | cons p rest =>
      cases hti : interpTable p.1 with
      | none => exact ⟨LookupErr.interp p.1, by simp [setupBatch, mapME, setupVol, hti]⟩
      | some ip =>
        exact ⟨LookupErr.raw, by simp [setupBatch, mapME, setupVol, hti, hraw]⟩
  · intro vt roi hmem hti
    induction request with
    | nil => simp at hmem
    | cons p rest ih =>
      cases hf : setupVol chunk p with
      | error e => exact ⟨e, by simp [setupBatch, mapME, hf]⟩
      | ok y =>
        rcases List.mem_cons.mp hmem with hhead | htail
        · exfalso
          have h1 : p.1 = vt := by rw [← hhead]
          have hp : setupVol chunk p = Except.error (LookupErr.interp vt) := by
            simp [setupVol, h1, hti]
          rw [hp] at hf
          cases hf
        · obtain ⟨e2, he2⟩ := ih htail
          refine ⟨e2, ?_⟩
          have he2m : mapME (setupVol chunk) rest = Except.error e2 := he2
          simp [setupBatch, mapME, hf, he2m]
  · intro rawv b hraw hok
    induction request generalizing b with
    | nil =>
      have : b = [] := by
        simp [setupBatch, mapME] at hok
        exact hok
      subst this
      intro pr hpr
      simp at hpr
    | cons p rest ih =>
      obtain ⟨y, ys2, hf, hr, hys⟩ := mapME_cons_ok (setupVol chunk) p rest b hok
      subst hys
      intro pr hpr
      rcases List.mem_cons.mp hpr with hhead | htail
      · subst hhead
        cases hti : interpTable p.1 with
        | none => rw [setupVol, hti] at hf; cases hf
        | some ip =>
          rw [setupVol, hti, hraw] at hf
          injection hf with hy
          rw [← hy]
      · exact ih ys2 hr pr htail
  · intro up q qs e hsetup
    simp [provideTrace, provideStep, hsetup]

/-- A concrete request asking for an entity outside the interpolation
table. -/
def c10req : Request := [(VolumeType.ALPHA_MASK, ⟨[0], [4]⟩)]

/-- A concrete first chunk with no RAW entry. -/
def c10chunk : Batch := [(VolumeType.GT_LABELS, c7vol)]

/-- C10 witness: allocating the output for a request holding only
GT_LABELS against a chunk with no RAW entry fails with a lookup error. -/
theorem C10_output_allocation_witness :
    ∃ e, setupBatch [(VolumeType.GT_LABELS, (⟨[0], [4]⟩ : Roi))] c10chunk =
      Except.error e :=
  (C10_output_allocation [(VolumeType.GT_LABELS, ⟨[0], [4]⟩)] c10chunk).1
    (by decide) rfl

end Gunpowder
